import Mathlib

/-!
# Verification of the Gomoku move-evaluation engine (src/gomoku.py)

Shallow embedding of the core of `GomokuApp`: board state, line scanner,
win detector, candidate generator, heuristic scorer and the three-tier
move selector.  The Python board is a 15×15 list of lists of ints
(0 empty, 1 black, 2 white); we embed it as `List (List Nat)` and thread
it explicitly where the Python code mutates it.  Python `int(c * s)`
with a float literal `c` is embedded exactly (IEEE-754 binary64
round-to-nearest-even followed by truncation toward zero), valid on the
integer ranges the program produces (|s| < 2^53, where int-to-float
conversion is exact).
-/

def BOARD_SIZE : Nat := 15

def EMPTY : Nat := 0

def BLACK : Nat := 1

def WHITE : Nat := 2

/-- horiz/vert/diag/anti-diag, as in `DIRECTIONS` of the source. -/
def DIRECTIONS : List (Int × Int) := [(1, 0), (0, 1), (1, 1), (1, -1)]

/-- `CENTER = (BOARD_SIZE // 2, BOARD_SIZE // 2)`. -/
def CENTER : Int × Int := (7, 7)

def DIFF_LOW : String := "low"

def DIFF_MID : String := "mid"

def DIFF_HIGH : String := "high"

/-- The `Move` dataclass: row, column, color. -/
structure Move where
  r : Int
  c : Int
  color : Nat
deriving DecidableEq

/-- The board: `self.board`, a list of `BOARD_SIZE` rows of cell values. -/
abbrev Board := List (List Nat)

/-- `0 <= r < BOARD_SIZE and 0 <= c < BOARD_SIZE`. -/
def inBounds (r c : Int) : Bool :=
  0 ≤ r && r < (BOARD_SIZE : Int) && 0 ≤ c && c < (BOARD_SIZE : Int)

/-- `self.board[r][c]`.  Only ever read behind an in-bounds guard in the
source, so coordinates are nonnegative at every use. -/
def getCell (b : Board) (r c : Int) : Nat :=
  (b.getD r.toNat []).getD c.toNat EMPTY

/-- `self.board[r][c] = v`.  Only ever performed on in-bounds cells in the
source. -/
def setCell (b : Board) (r c : Int) (v : Nat) : Board :=
  b.set r.toNat ((b.getD r.toNat []).set c.toNat v)

/-- The scanning while-loop shared by `count_one_direction` and
`line_count_and_open_ends`: starting at `(rr, cc)` walk by `(dr, dc)`
while cells are in bounds and hold `color`; return the number of matching
cells and the first position that stopped the walk.  The fuel
`BOARD_SIZE` never binds for the unit direction vectors the source uses,
since a unit coordinate leaves the board within `BOARD_SIZE` steps. -/
def scanAux (b : Board) (color : Nat) (dr dc : Int) :
    Nat → Int → Int → Nat × Int × Int
  | 0, rr, cc => (0, rr, cc)
  | fuel + 1, rr, cc =>
    if inBounds rr cc && (getCell b rr cc == color) then
      let res := scanAux b color dr dc fuel (rr + dr) (cc + dc)
      (res.1 + 1, res.2)
    else (0, rr, cc)

/-- `GomokuApp.count_one_direction`. -/
def count_one_direction (b : Board) (r c dr dc : Int) (color : Nat) : Nat :=
  (scanAux b color dr dc BOARD_SIZE (r + dr) (c + dc)).1

/-- `GomokuApp.check_win`: some direction reaches `count >= 5`. -/
def check_win (b : Board) (r c : Int) (color : Nat) : Bool :=
  DIRECTIONS.any fun d =>
    5 ≤ 1 + count_one_direction b r c d.1 d.2 color
        + count_one_direction b r c (-d.1) (-d.2) color

/-- `GomokuApp.line_count_and_open_ends`: count through `(r, c)` in
direction `(dr, dc)` (both ways, the origin counted once) and the number
of open ends. -/
def line_count_and_open_ends (b : Board) (r c dr dc : Int) (color : Nat) :
    Nat × Nat :=
  let fwd := scanAux b color dr dc BOARD_SIZE (r + dr) (c + dc)
  let end1_open := inBounds fwd.2.1 fwd.2.2 && (getCell b fwd.2.1 fwd.2.2 == EMPTY)
  let bwd := scanAux b color (-dr) (-dc) BOARD_SIZE (r - dr) (c - dc)
  let end2_open := inBounds bwd.2.1 bwd.2.2 && (getCell b bwd.2.1 bwd.2.2 == EMPTY)
  (1 + fwd.1 + bwd.1,
   (if end1_open then 1 else 0) + (if end2_open then 1 else 0))

/-- `GomokuApp.pattern_score`. -/
def pattern_score (count open_ends : Nat) : Int :=
  if 5 ≤ count then 10 ^ 12
  else if count = 4 ∧ open_ends = 2 then 10 ^ 8
  else if count = 4 ∧ open_ends = 1 then 10 ^ 6
  else if count = 3 ∧ open_ends = 2 then 10 ^ 5
  else if count = 3 ∧ open_ends = 1 then 10 ^ 3
  else if count = 2 ∧ open_ends = 2 then 500
  else if count = 2 ∧ open_ends = 1 then 80
  else if count = 1 ∧ open_ends = 2 then 10
  else 1

/-- `GomokuApp.score_move`: occupied cells get the sentinel `-10^15`,
otherwise the pattern scores of the four directions are summed. -/
def score_move (b : Board) (r c : Int) (color : Nat) : Int :=
  if getCell b r c ≠ EMPTY then -(10 ^ 15)
  else DIRECTIONS.foldl
    (fun total d =>
      total + pattern_score (line_count_and_open_ends b r c d.1 d.2 color).1
        (line_count_and_open_ends b r c d.1 d.2 color).2)
    0

/-! ## Exact model of Python `int(c * s)` for the float literals of the
source (`0.9`, `0.8`, `0.6`, `1.05`).  The literal is the binary64 value
`m * 2^(-t)`; the product with the (exactly converted) integer `s` is
rounded to 53 significant bits with round-to-nearest-ties-to-even and
then truncated toward zero. -/

/-- Round `a / 2^k` to the nearest integer, ties to even. -/
def rne (a k : Nat) : Nat :=
  if k = 0 then a
  else
    let q := a / 2 ^ k
    let r := a % 2 ^ k
    if 2 ^ k < 2 * r then q + 1
    else if 2 * r < 2 ^ k then q
    else if q % 2 = 0 then q else q + 1

/-- Number of binary digits of `n`, computed structurally (the fuel 120
covers every product below `2^120`; the products that occur are below
`2^106`). -/
def bitlenAux : Nat → Nat → Nat
  | 0, _ => 0
  | fuel + 1, n => if n = 0 then 0 else bitlenAux fuel (n / 2) + 1

def bitlen (n : Nat) : Nat := bitlenAux 120 n

/-- `int(c * s)` where `c` is the binary64 value `m * 2^(-t)`
(`2^52 ≤ m < 2^53`) and `s` an integer with `|s| < 2^53`. -/
def intMulDouble (m t : Nat) (s : Int) : Int :=
  let a := s.natAbs * m
  let L := bitlen a
  let k := if L ≤ 53 then 0 else L - 53
  let rounded := rne a k
  let v := if t ≤ k then rounded * 2 ^ (k - t) else rounded / 2 ^ (t - k)
  if s < 0 then -(v : Int) else (v : Int)

/-- `int(0.9 * s)`. -/
def int09 (s : Int) : Int := intMulDouble 8106479329266893 53 s

/-- `int(0.8 * s)`. -/
def int08 (s : Int) : Int := intMulDouble 3602879701896397 52 s

/-- `int(0.6 * s)`. -/
def int06 (s : Int) : Int := intMulDouble 5404319552844595 53 s

/-- `int(1.05 * s)`. -/
def int105 (s : Int) : Int := intMulDouble 4728779608739021 52 s

/-! ## Candidate generation and probes -/

/-- The offsets `range(-radius, radius + 1)` of `get_candidates`. -/
def offsets (radius : Nat) : List Int :=
  (List.range (2 * radius + 1)).map fun (i : Nat) => (i : Int) - (radius : Int)

/-- `GomokuApp.get_candidates`: center cell on an empty move log,
otherwise the set (deduplicated) of in-bounds empty cells within
`radius` of an occupied cell (occupancy taken from `self.moves`,
emptiness from `self.board`). -/
def get_candidates (b : Board) (moves : List Move) (radius : Nat) :
    List (Int × Int) :=
  if moves.isEmpty then [CENTER]
  else
    (((moves.map fun mv => (mv.r, mv.c)).flatMap fun p =>
        (offsets radius).flatMap fun dr =>
          (offsets radius).map fun dc => (p.1 + dr, p.2 + dc)).filter
      fun q => inBounds q.1 q.2 && (getCell b q.1 q.2 == EMPTY)).dedup

/-- `GomokuApp.is_win_move` with the board threaded explicitly: place the
stone, run the win check, restore the cell, and return both the verdict
and the final board state. -/
def is_win_move_st (b : Board) (r c : Int) (color : Nat) : Bool × Board :=
  if getCell b r c ≠ EMPTY then (false, b)
  else
    let b1 := setCell b r c color
    let win := check_win b1 r c color
    (win, setCell b1 r c EMPTY)

/-- The verdict of `is_win_move` (the board restoration is proved
separately). -/
def is_win_move (b : Board) (r c : Int) (color : Nat) : Bool :=
  (is_win_move_st b r c color).1

/-! ## The three difficulty tiers -/

/-- Stable insertion into a sorted list: the new element goes in front
of the first element it compares `le` to, so equal keys keep their
original relative order (as Python's stable `sort`/`sorted`). -/
def sinsert {α : Type _} (le : α → α → Bool) (a : α) : List α → List α
  | [] => [a]
  | b :: t => if le a b then a :: b :: t else b :: sinsert le a t

/-- Stable insertion sort; agrees with Python's stable sort (and with
any sort at all when the keys are pairwise distinct, as in the
descending tuple sorts below). -/
def isort {α : Type _} (le : α → α → Bool) : List α → List α
  | [] => []
  | a :: t => sinsert le a (isort le t)

/-- Manhattan distance to `CENTER`, the sort key of `ai_low`. -/
def center_dist (p : Int × Int) : Nat :=
  (p.1 - CENTER.1).natAbs + (p.2 - CENTER.2).natAbs

/-- `GomokuApp.ai_low`: sort candidates by distance to center (stable, as
Python `sorted`), keep the closer `max 6 (n / 3)`, and pick one of them;
the unspecified draw of `random.choice` is modelled by the index
`k % pool.length` for an arbitrary `k`. -/
def ai_low (candidates : List (Int × Int)) (k : Nat) : Option (Int × Int) :=
  let pool := (isort (fun p q => center_dist p ≤ center_dist q) candidates).take
    (max 6 (candidates.length / 3))
  pool.get? (k % pool.length)

/-- Stage 3 of `ai_mid`: the fold over candidates keeping the strictly
best blended score, starting from `best = None`, `best_score = -10^18`. -/
def ai_mid_best (b : Board) :
    List (Int × Int) → Option (Int × Int) → Int → Option (Int × Int)
  | [], best, _ => best
  | p :: rest, best, best_score =>
    let s_ai := score_move b p.1 p.2 WHITE
    let s_hu := score_move b p.1 p.2 BLACK
    let score := s_ai + int09 s_hu
      - ((p.1 - CENTER.1).natAbs + (p.2 - CENTER.2).natAbs : Int) * 3
    if best_score < score then ai_mid_best b rest (some p) score
    else ai_mid_best b rest best best_score

/-- `GomokuApp.ai_mid`: immediate win, else immediate block, else the
best blended static score. -/
def ai_mid (b : Board) (candidates : List (Int × Int)) : Option (Int × Int) :=
  match candidates.find? (fun p => is_win_move b p.1 p.2 WHITE) with
  | some p => some p
  | none =>
    match candidates.find? (fun p => is_win_move b p.1 p.2 BLACK) with
    | some p => some p
    | none => ai_mid_best b candidates none (-(10 ^ 18))

/-- Descending lexicographic order on `(score, r, c)` triples: Python
`list.sort(reverse=True)` on distinct tuples. -/
def tge (a b : Int × Int × Int) : Bool :=
  if a.1 = b.1 then
    if a.2.1 = b.2.1 then b.2.2 ≤ a.2.2
    else decide (b.2.1 < a.2.1)
  else decide (b.1 < a.1)

/-- `GomokuApp.best_opponent_response`: 0 on no candidates; the sentinel
`10^12` if the opponent (BLACK) has an immediate win; otherwise the
largest blended score among the top `min 15 n` ranked responses. -/
def best_opponent_response (b : Board) (opp_candidates : List (Int × Int)) :
    Int :=
  if opp_candidates.isEmpty then 0
  else if opp_candidates.any (fun p => is_win_move b p.1 p.2 BLACK) then 10 ^ 12
  else
    let ranked := opp_candidates.map fun p =>
      (score_move b p.1 p.2 BLACK + int06 (score_move b p.1 p.2 WHITE), p.1, p.2)
    ((isort tge ranked).take (min 15 ranked.length)).foldl
      (fun best s => if best < s.1 then s.1 else best) 0

/-- The value measured for a candidate `(r, c)` in the lookahead loop of
`ai_high`: with the WHITE stone placed on the board,
`score_move(r, c, WHITE) - int(1.05 * opp_best)` — the first term is
evaluated while the simulated stone still occupies `(r, c)`, exactly as
in the source. -/
def lookahead_val (moves : List Move) (b : Board) (r c : Int) : Int :=
  let b1 := setCell b r c WHITE
  let opp_candidates := get_candidates b1 moves 2
  let opp_best := best_opponent_response b1 opp_candidates
  score_move b1 r c WHITE - int105 opp_best

/-- The lookahead loop of `ai_high` over the pre-ranked `top_moves`,
with the board threaded explicitly: place WHITE, early-return on a win
(after restoring), otherwise measure `lookahead_val`, restore, and keep
the strictly best value. -/
def ai_high_loop (moves : List Move) (b : Board) :
    List (Int × Int × Int) → Option (Int × Int) → Int →
      Option (Int × Int) × Board
  | [], best, _ => (best, b)
  | t :: rest, best, best_val =>
    let r := t.2.1
    let c := t.2.2
    let b1 := setCell b r c WHITE
    if check_win b1 r c WHITE then (some (r, c), setCell b1 r c EMPTY)
    else
      let val := lookahead_val moves b r c
      let b2 := setCell b1 r c EMPTY
      if best_val < val then ai_high_loop moves b2 rest (some (r, c)) val
      else ai_high_loop moves b2 rest best best_val

/-- `GomokuApp.ai_high` with the board threaded explicitly: immediate
win, else immediate block, else pre-rank by blended static score, keep
the top `min 20 n`, run the one-ply lookahead loop, and fall back to
`ai_mid` when the loop produced no move. -/
def ai_high_st (b : Board) (moves : List Move)
    (candidates : List (Int × Int)) : Option (Int × Int) × Board :=
  match candidates.find? (fun p => is_win_move b p.1 p.2 WHITE) with
  | some p => (some p, b)
  | none =>
    match candidates.find? (fun p => is_win_move b p.1 p.2 BLACK) with
    | some p => (some p, b)
    | none =>
      let scored := candidates.map fun p =>
        (score_move b p.1 p.2 WHITE + int08 (score_move b p.1 p.2 BLACK)
          - ((p.1 - CENTER.1).natAbs + (p.2 - CENTER.2).natAbs : Int) * 2,
         p.1, p.2)
      let top_moves := (isort tge scored).take (min 20 scored.length)
      let res := ai_high_loop moves b top_moves none (-(10 ^ 18))
      match res.1 with
      | some p => (some p, res.2)
      | none => (ai_mid b candidates, res.2)

/-- The move returned by `ai_high`. -/
def ai_high (b : Board) (moves : List Move) (candidates : List (Int × Int)) :
    Option (Int × Int) :=
  (ai_high_st b moves candidates).1

/-- `GomokuApp.ai_choose_move`: generate the candidates (radius 2),
report no move on an empty set, otherwise dispatch on the difficulty.
`(None, None)` of the source becomes `none`. -/
def ai_choose_move (b : Board) (moves : List Move) (difficulty : String)
    (k : Nat) : Option (Int × Int) :=
  let candidates := get_candidates b moves 2
  if candidates.isEmpty then none
  else if difficulty == DIFF_LOW then ai_low candidates k
  else if difficulty == DIFF_MID then ai_mid b candidates
  else ai_high b moves candidates

/-! ## Concrete boards used as witnesses -/

/-- The all-empty 15×15 board. -/
def emptyBoard : Board := List.replicate 15 (List.replicate 15 EMPTY)

/-- `n` BLACK stones in row 7, columns 3 .. 3+n-1. -/
def rowBoard (n : Nat) : Board :=
  (List.range n).foldl (fun bb i => setCell bb 7 (3 + (i : Int)) BLACK)
    emptyBoard

/-! ## Basic lemmas about cell updates -/

lemma mem_sinsert {α : Type _} (le : α → α → Bool) (a x : α) :
    ∀ l : List α, x ∈ sinsert le a l ↔ x = a ∨ x ∈ l := by
  intro l
  induction l with
  | nil => simp [sinsert]
  | cons b t ih =>
    simp only [sinsert]
    split
    · simp
    · simp [ih]
      tauto

lemma mem_isort {α : Type _} (le : α → α → Bool) (x : α) :
    ∀ l : List α, x ∈ isort le l ↔ x ∈ l := by
  intro l
  induction l with
  | nil => simp [isort]
  | cons a t ih =>
    simp [isort, mem_sinsert, ih]

lemma list_set_getD {α : Type _} (l : List α) (i : Nat) (d : α) :
    l.set i (l.getD i d) = l := by
  induction l generalizing i with
  | nil => simp
  | cons a t ih =>
    cases i with
    | zero => simp
    | succ n => simpa using ih n

lemma getD_set_self {α : Type _} (l : List α) (i : Nat) (a d : α) :
    (l.set i a).getD i d = if i < l.length then a else d := by
  induction l generalizing i with
  | nil => simp
  | cons x t ih =>
    cases i with
    | zero => simp
    | succ n => simpa [Nat.succ_lt_succ_iff] using ih n

lemma list_set_of_length_le {α : Type _} (l : List α) (i : Nat) (a : α)
    (h : l.length ≤ i) : l.set i a = l := by
  induction l generalizing i with
  | nil => simp
  | cons x t ih =>
    cases i with
    | zero => simp at h
    | succ n => simpa using ih n (by simpa using h)

/-- Writing back the value a cell already holds does not change the board. -/
lemma setCell_same (b : Board) (r c : Int) (v : Nat)
    (h : getCell b r c = v) : setCell b r c v = b := by
  subst h
  unfold setCell getCell
  rw [list_set_getD, list_set_getD]

/-- Writing a cell twice keeps only the second write. -/
lemma setCell_setCell (b : Board) (r c : Int) (v w : Nat) :
    setCell (setCell b r c v) r c w = setCell b r c w := by
  unfold setCell
  rw [getD_set_self]
  by_cases h : r.toNat < b.length
  · rw [if_pos h, List.set_set, List.set_set]
  · rw [if_neg h]
    rw [list_set_of_length_le b r.toNat _ (Nat.le_of_not_lt h),
        list_set_of_length_le b r.toNat _ (Nat.le_of_not_lt h),
        List.getD_eq_default _ _ (Nat.le_of_not_lt h),
        list_set_of_length_le b r.toNat _ (Nat.le_of_not_lt h)]

/-- Placing a stone on an empty cell and then clearing it restores the
original board. -/
lemma setCell_restore (b : Board) (r c : Int) (v : Nat)
    (h : getCell b r c = EMPTY) :
    setCell (setCell b r c v) r c EMPTY = b := by
  rw [setCell_setCell, setCell_same b r c EMPTY h]

/-- The `is_win_move` probe always hands back the original board. -/
lemma is_win_move_st_board (b : Board) (r c : Int) (color : Nat) :
    (is_win_move_st b r c color).2 = b := by
  unfold is_win_move_st
  split
  · rfl
  · next h => exact setCell_restore b r c color (not_ne_iff.mp h)

/-- The lookahead loop restores the board on every exit path, provided
the probed cells are empty. -/
lemma ai_high_loop_board (moves : List Move) (b : Board) :
    ∀ (l : List (Int × Int × Int)) (best : Option (Int × Int)) (bv : Int),
      (∀ t ∈ l, getCell b t.2.1 t.2.2 = EMPTY) →
      (ai_high_loop moves b l best bv).2 = b := by
  intro l
  induction l with
  | nil => intro best bv _; rfl
  | cons t rest ih =>
    intro best bv h
    have ht : getCell b t.2.1 t.2.2 = EMPTY := h t (by simp)
    have hrest : ∀ u ∈ rest, getCell b u.2.1 u.2.2 = EMPTY := fun u hu =>
      h u (by simp [hu])
    simp only [ai_high_loop]
    split
    · simpa using setCell_restore b t.2.1 t.2.2 WHITE ht
    · rw [setCell_restore b t.2.1 t.2.2 WHITE ht]
      split
      · exact ih _ _ hrest
      · exact ih _ _ hrest

/-- C5: `is_win_move` and the High-tier lookahead leave the board in
exactly the state it had before the call, on every exit path, for every
board, cell and side (the lookahead is run on candidate cells, which are
empty). -/
theorem probe_and_lookahead_restore_board :
    (∀ (b : Board) (r c : Int) (color : Nat),
      (is_win_move_st b r c color).2 = b)
    ∧ ∀ (b : Board) (moves : List Move) (candidates : List (Int × Int)),
        (∀ p ∈ candidates, getCell b p.1 p.2 = EMPTY) →
        (ai_high_st b moves candidates).2 = b := by
  refine ⟨is_win_move_st_board, ?_⟩
  intro b moves candidates h
  unfold ai_high_st
  split
  · rfl
  · split
    · rfl
    · simp only
      have hb : ∀ (n : Nat),
          (ai_high_loop moves b
            ((isort tge (candidates.map fun p =>
              (score_move b p.1 p.2 WHITE + int08 (score_move b p.1 p.2 BLACK)
                - ((p.1 - CENTER.1).natAbs + (p.2 - CENTER.2).natAbs : Int) * 2,
               p.1, p.2))).take n) none (-(10 ^ 18))).2 = b := by
        intro n
        apply ai_high_loop_board
        intro t ht
        have h2 := (mem_isort tge t _).mp (List.mem_of_mem_take ht)
        obtain ⟨p, hp, rfl⟩ := List.mem_map.mp h2
        exact h p hp
      split
      · exact hb _
      · exact hb _

/-- C1: `check_win` reports a win iff in some of the four directions
`1 + forward count + backward count` reaches 5; exactly five in a row is
a win, four is not, six still is. -/
theorem check_win_iff_direction_total :
    (∀ (b : Board) (r c : Int) (color : Nat),
      check_win b r c color = true ↔
        ∃ d ∈ DIRECTIONS,
          5 ≤ 1 + count_one_direction b r c d.1 d.2 color
              + count_one_direction b r c (-d.1) (-d.2) color)
    ∧ check_win (rowBoard 5) 7 5 BLACK = true
    ∧ check_win (rowBoard 4) 7 5 BLACK = false
    ∧ check_win (rowBoard 6) 7 5 BLACK = true := by
  refine ⟨?_, by decide, by decide, by decide⟩
  intro b r c color
  simp [check_win, List.any_eq_true]

/-! ## Bounds for the line scanner -/

lemma scanAux_le_row_incr (b : Board) (color : Nat) (dc : Int) :
    ∀ (fuel : Nat) (rr cc : Int),
      (scanAux b color 1 dc fuel rr cc).1 ≤ (15 - rr).toNat := by
  intro fuel
  induction fuel with
  | zero => intro rr cc; simp [scanAux]
  | succ n ih =>
    intro rr cc
    simp only [scanAux]
    split
    · next hcond =>
      simp only [Bool.and_eq_true, inBounds, decide_eq_true_eq, BOARD_SIZE] at hcond
      have := ih (rr + 1) (cc + dc)
      omega
    · simp

lemma scanAux_le_row_decr (b : Board) (color : Nat) (dc : Int) :
    ∀ (fuel : Nat) (rr cc : Int),
      (scanAux b color (-1) dc fuel rr cc).1 ≤ (rr + 1).toNat := by
  intro fuel
  induction fuel with
  | zero => intro rr cc; simp [scanAux]
  | succ n ih =>
    intro rr cc
    simp only [scanAux]
    split
    · next hcond =>
      simp only [Bool.and_eq_true, inBounds, decide_eq_true_eq, BOARD_SIZE] at hcond
      have := ih (rr + -1) (cc + dc)
      omega
    · simp

lemma scanAux_le_col_incr (b : Board) (color : Nat) (dr : Int) :
    ∀ (fuel : Nat) (rr cc : Int),
      (scanAux b color dr 1 fuel rr cc).1 ≤ (15 - cc).toNat := by
  intro fuel
  induction fuel with
  | zero => intro rr cc; simp [scanAux]
  | succ n ih =>
    intro rr cc
    simp only [scanAux]
    split
    · next hcond =>
      simp only [Bool.and_eq_true, inBounds, decide_eq_true_eq, BOARD_SIZE] at hcond
      have := ih (rr + dr) (cc + 1)
      omega
    · simp

lemma scanAux_le_col_decr (b : Board) (color : Nat) (dr : Int) :
    ∀ (fuel : Nat) (rr cc : Int),
      (scanAux b color dr (-1) fuel rr cc).1 ≤ (cc + 1).toNat := by
  intro fuel
  induction fuel with
  | zero => intro rr cc; simp [scanAux]
  | succ n ih =>
    intro rr cc
    simp only [scanAux]
    split
    · next hcond =>
      simp only [Bool.and_eq_true, inBounds, decide_eq_true_eq, BOARD_SIZE] at hcond
      have := ih (rr + dr) (cc + -1)
      omega
    · simp

/-- C9: for every in-bounds origin and each of the four directions, the
forward count plus the backward count plus the origin never exceeds
`BOARD_SIZE` (both for the win-check scanner and for the heuristic line
count). -/
theorem line_scan_total_le_board_size (b : Board) (r c : Int) (color : Nat)
    (d : Int × Int) (hd : d ∈ DIRECTIONS) (h : inBounds r c = true) :
    1 + count_one_direction b r c d.1 d.2 color
      + count_one_direction b r c (-d.1) (-d.2) color ≤ BOARD_SIZE
    ∧ (line_count_and_open_ends b r c d.1 d.2 color).1 ≤ BOARD_SIZE := by
  simp only [Bool.and_eq_true, inBounds, decide_eq_true_eq, BOARD_SIZE] at h
  simp only [DIRECTIONS, List.mem_cons, List.not_mem_nil, or_false] at hd
  rcases hd with rfl | rfl | rfl | rfl <;>
    simp only [count_one_direction, line_count_and_open_ends, BOARD_SIZE]
  · have h1 := scanAux_le_row_incr b color 0 15 (r + 1) (c + 0)
    have h2 := scanAux_le_row_decr b color (-0) 15 (r + -1) (c + -0)
    have h3 := scanAux_le_row_decr b color (-0) 15 (r - 1) (c - 0)
    constructor <;> omega
  · have h1 := scanAux_le_col_incr b color 0 15 (r + 0) (c + 1)
    have h2 := scanAux_le_col_decr b color (-0) 15 (r + -0) (c + -1)
    have h3 := scanAux_le_col_decr b color (-0) 15 (r - 0) (c - 1)
    constructor <;> omega
  · have h1 := scanAux_le_row_incr b color 1 15 (r + 1) (c + 1)
    have h2 := scanAux_le_row_decr b color (-1) 15 (r + -1) (c + -1)
    have h3 := scanAux_le_row_decr b color (-1) 15 (r - 1) (c - 1)
    constructor <;> omega
  · have h1 := scanAux_le_row_incr b color (-1) 15 (r + 1) (c + -1)
    have h2 := scanAux_le_row_decr b color (- -1) 15 (r + -1) (c + - -1)
    have h3 := scanAux_le_row_decr b color (- -1) 15 (r - 1) (c - -1)
    constructor <;> omega

/-- C8: the pattern score table is strictly ordered by threat level, and
any count of five or more strictly exceeds every lower pattern. -/
theorem pattern_score_strict_dominance :
    pattern_score 4 2 > pattern_score 4 1
    ∧ pattern_score 4 1 > pattern_score 3 2
    ∧ pattern_score 3 2 > pattern_score 3 1
    ∧ pattern_score 3 1 > pattern_score 2 2
    ∧ pattern_score 2 2 > pattern_score 2 1
    ∧ ∀ (count open_ends : Nat), 5 ≤ count →
        pattern_score count open_ends > pattern_score 4 2
        ∧ pattern_score count open_ends > pattern_score 4 1
        ∧ pattern_score count open_ends > pattern_score 3 2
        ∧ pattern_score count open_ends > pattern_score 3 1
        ∧ pattern_score count open_ends > pattern_score 2 2
        ∧ pattern_score count open_ends > pattern_score 2 1 := by
  refine ⟨by decide, by decide, by decide, by decide, by decide, ?_⟩
  intro count open_ends h
  have hv : pattern_score count open_ends = 10 ^ 12 := by
    unfold pattern_score
    rw [if_pos h]
  rw [hv]
  refine ⟨by decide, by decide, by decide, by decide, by decide, by decide⟩

/-- Witness for C8 at `count = 5`. -/
theorem pattern_score_strict_dominance_witness :
    pattern_score 5 0 > pattern_score 4 2 := by
  exact (pattern_score_strict_dominance.2.2.2.2.2 5 0 (by decide)).1

/-- Witness for C9 at the empty board, origin `(7, 7)`, direction `(1, 0)`. -/
theorem line_scan_total_le_board_size_witness :
    1 + count_one_direction emptyBoard 7 7 1 0 BLACK
      + count_one_direction emptyBoard 7 7 (-1) (-0) BLACK ≤ BOARD_SIZE := by
  exact (line_scan_total_le_board_size emptyBoard 7 7 BLACK (1, 0)
    (by decide) (by decide)).1

lemma mem_offsets (radius : Nat) (d : Int) :
    d ∈ offsets radius ↔ -(radius : Int) ≤ d ∧ d ≤ radius := by
  constructor
  · intro hd
    obtain ⟨i, hi, rfl⟩ := List.mem_map.mp hd
    have := List.mem_range.mp hi
    omega
  · intro hd
    exact List.mem_map.mpr ⟨(d + radius).toNat,
      List.mem_range.mpr (by omega), by omega⟩

/-- C6: on an empty move log the candidate generator returns exactly the
singleton center; otherwise it returns, without duplicates, exactly the
in-bounds empty cells within `radius` (in both row and column offset) of
some occupied cell. -/
theorem get_candidates_characterization (b : Board) (moves : List Move)
    (radius : Nat) :
    (moves = [] → get_candidates b moves radius = [CENTER])
    ∧ (moves ≠ [] → ∀ p : Int × Int,
        p ∈ get_candidates b moves radius ↔
          inBounds p.1 p.2 = true ∧ getCell b p.1 p.2 = EMPTY ∧
          ∃ mv ∈ moves, (p.1 - mv.r).natAbs ≤ radius
            ∧ (p.2 - mv.c).natAbs ≤ radius)
    ∧ (get_candidates b moves radius).Nodup := by
  refine ⟨fun hm => by simp [get_candidates, hm], fun hm p => ?_, ?_⟩
  · rw [get_candidates, if_neg (by simpa using hm)]
    rw [List.mem_dedup, List.mem_filter]
    simp only [List.mem_flatMap, List.mem_map, Bool.and_eq_true, beq_iff_eq,
      mem_offsets]
    constructor
    · rintro ⟨⟨q, ⟨mv, hmv, rfl⟩, dr, hdr, dc, hdc, rfl⟩, hin, hempty⟩
      exact ⟨hin, hempty, mv, hmv, by omega, by omega⟩
    · rintro ⟨hin, hempty, mv, hmv, h1, h2⟩
      refine ⟨⟨(mv.r, mv.c), ⟨mv, hmv, rfl⟩, p.1 - mv.r, by omega,
        p.2 - mv.c, by omega, ?_⟩, hin, hempty⟩
      simp
  · rw [get_candidates]
    split
    · simp
    · exact List.nodup_dedup _

/-- C7: with an empty candidate set the move selector reports no legal
move (`none`) rather than failing, for every difficulty tier. -/
theorem ai_choose_move_none_on_empty_candidates (b : Board)
    (moves : List Move) (difficulty : String) (k : Nat)
    (h : get_candidates b moves 2 = []) :
    ai_choose_move b moves difficulty k = none := by
  unfold ai_choose_move
  rw [h]
  rfl

/-- C2: whenever some candidate is an immediate winning placement for
WHITE (the computer), both `ai_mid` and `ai_high` return a winning
placement. -/
theorem mid_high_take_immediate_win (b : Board) (moves : List Move)
    (h : ∃ p ∈ get_candidates b moves 2, is_win_move b p.1 p.2 WHITE = true) :
    (∃ q, ai_mid b (get_candidates b moves 2) = some q
      ∧ is_win_move b q.1 q.2 WHITE = true)
    ∧ ∃ q, ai_high b moves (get_candidates b moves 2) = some q
      ∧ is_win_move b q.1 q.2 WHITE = true := by
  have hs : (List.find? (fun p => is_win_move b p.1 p.2 WHITE)
      (get_candidates b moves 2)).isSome = true := List.find?_isSome.mpr h
  obtain ⟨q, hq⟩ := Option.isSome_iff_exists.mp hs
  have hqw := List.find?_some hq
  refine ⟨⟨q, ?_, hqw⟩, ⟨q, ?_, hqw⟩⟩
  · unfold ai_mid
    rw [hq]
  · unfold ai_high ai_high_st
    rw [hq]

/-- C3: when no candidate is an immediate WHITE win but some candidate
would complete five for BLACK (the opponent), both `ai_mid` and
`ai_high` return such a blocking cell. -/
theorem mid_high_block_opponent_win (b : Board) (moves : List Move)
    (hw : ∀ p ∈ get_candidates b moves 2, is_win_move b p.1 p.2 WHITE = false)
    (hb : ∃ p ∈ get_candidates b moves 2, is_win_move b p.1 p.2 BLACK = true) :
    (∃ q, ai_mid b (get_candidates b moves 2) = some q
      ∧ is_win_move b q.1 q.2 BLACK = true)
    ∧ ∃ q, ai_high b moves (get_candidates b moves 2) = some q
      ∧ is_win_move b q.1 q.2 BLACK = true := by
  have hw0 : List.find? (fun p => is_win_move b p.1 p.2 WHITE)
      (get_candidates b moves 2) = none :=
    List.find?_eq_none.mpr fun p hp => by simp [hw p hp]
  have hs : (List.find? (fun p => is_win_move b p.1 p.2 BLACK)
      (get_candidates b moves 2)).isSome = true := List.find?_isSome.mpr hb
  obtain ⟨q, hq⟩ := Option.isSome_iff_exists.mp hs
  have hqb := List.find?_some hq
  refine ⟨⟨q, ?_, hqb⟩, ⟨q, ?_, hqb⟩⟩
  · unfold ai_mid
    rw [hw0, hq]
  · unfold ai_high ai_high_st
    rw [hw0, hq]

/-! ## Every tier returns a member of the candidate set -/

lemma ai_low_mem (candidates : List (Int × Int)) (k : Nat) (p : Int × Int)
    (h : ai_low candidates k = some p) : p ∈ candidates := by
  unfold ai_low at h
  have hmem := List.get?_mem h
  exact (mem_isort _ p candidates).mp (List.mem_of_mem_take hmem)

lemma ai_mid_best_mem (b : Board) :
    ∀ (l : List (Int × Int)) (acc : Option (Int × Int)) (v : Int)
      (p : Int × Int),
      ai_mid_best b l acc v = some p → p ∈ l ∨ acc = some p := by
  intro l
  induction l with
  | nil => intro acc v p h; exact Or.inr h
  | cons q rest ih =>
    intro acc v p h
    simp only [ai_mid_best] at h
    split at h
    · rcases ih _ _ _ h with hm | he
      · exact Or.inl (List.mem_cons_of_mem _ hm)
      · exact Or.inl (by simp [← Option.some_inj.mp he])
    · rcases ih _ _ _ h with hm | he
      · exact Or.inl (List.mem_cons_of_mem _ hm)
      · exact Or.inr he

lemma ai_mid_mem (b : Board) (candidates : List (Int × Int)) (p : Int × Int)
    (h : ai_mid b candidates = some p) : p ∈ candidates := by
  unfold ai_mid at h
  split at h
  · next q hq =>
    injection h with h1
    exact h1 ▸ List.mem_of_find?_eq_some hq
  · split at h
    · next q hq =>
      injection h with h1
      exact h1 ▸ List.mem_of_find?_eq_some hq
    · rcases ai_mid_best_mem b candidates none _ p h with hm | he
      · exact hm
      · cases he

lemma ai_high_loop_mem (moves : List Move) :
    ∀ (l : List (Int × Int × Int)) (b : Board) (best : Option (Int × Int))
      (bv : Int) (p : Int × Int),
      (ai_high_loop moves b l best bv).1 = some p →
      (∃ t ∈ l, (t.2.1, t.2.2) = p) ∨ best = some p := by
  intro l
  induction l with
  | nil => intro b best bv p h; exact Or.inr h
  | cons t rest ih =>
    intro b best bv p h
    simp only [ai_high_loop] at h
    split at h
    · simp only at h
      injection h with h1
      exact Or.inl ⟨t, by simp, h1⟩
    · split at h
      · rcases ih _ _ _ _ h with ⟨u, hu, he⟩ | he
        · exact Or.inl ⟨u, List.mem_cons_of_mem _ hu, he⟩
        · injection he with h1
          exact Or.inl ⟨t, by simp, h1⟩
      · rcases ih _ _ _ _ h with ⟨u, hu, he⟩ | he
        · exact Or.inl ⟨u, List.mem_cons_of_mem _ hu, he⟩
        · exact Or.inr he

lemma ai_high_mem (b : Board) (moves : List Move)
    (candidates : List (Int × Int)) (p : Int × Int)
    (h : ai_high b moves candidates = some p) : p ∈ candidates := by
  unfold ai_high ai_high_st at h
  split at h
  · next q hq =>
    injection h with h1
    exact h1 ▸ List.mem_of_find?_eq_some hq
  · split at h
    · next q hq =>
      injection h with h1
      exact h1 ▸ List.mem_of_find?_eq_some hq
    · simp only at h
      split at h
      · next q hq =>
        injection h with h1
        rcases ai_high_loop_mem moves _ _ _ _ _ hq with ⟨u, hu, he⟩ | he
        · have h2 := (mem_isort tge u _).mp (List.mem_of_mem_take hu)
          obtain ⟨pp, hpp, rfl⟩ := List.mem_map.mp h2
          simp only at he
          exact (h1 ▸ he) ▸ hpp
        · cases he
      · exact ai_mid_mem b candidates p h

lemma mem_get_candidates_cases (b : Board) (moves : List Move) (radius : Nat)
    (p : Int × Int) (hp : p ∈ get_candidates b moves radius) :
    (moves = [] ∧ p = CENTER) ∨
      (inBounds p.1 p.2 = true ∧ getCell b p.1 p.2 = EMPTY) := by
  by_cases hm : moves = []
  · left
    refine ⟨hm, ?_⟩
    rw [get_candidates, if_pos (by simp [hm])] at hp
    simpa using hp
  · right
    rw [get_candidates, if_neg (by simpa using hm)] at hp
    rw [List.mem_dedup, List.mem_filter] at hp
    have h2 := hp.2
    simp only [Bool.and_eq_true, beq_iff_eq] at h2
    exact h2

/-- C10: whenever the move selector returns a cell at any tier, that
cell is a member of the candidate set, hence within grid bounds and
empty on the input board (for a board consistent with its move log, the
center is empty when the log is). -/
theorem ai_choose_move_returns_legal_cell (b : Board) (moves : List Move)
    (difficulty : String) (k : Nat) (p : Int × Int)
    (h0 : moves = [] → getCell b CENTER.1 CENTER.2 = EMPTY)
    (h : ai_choose_move b moves difficulty k = some p) :
    p ∈ get_candidates b moves 2
    ∧ inBounds p.1 p.2 = true ∧ getCell b p.1 p.2 = EMPTY := by
  have hmem : p ∈ get_candidates b moves 2 := by
    simp only [ai_choose_move] at h
    by_cases he : (get_candidates b moves 2).isEmpty = true
    · rw [if_pos he] at h
      cases h
    · rw [if_neg he] at h
      split at h
      · exact ai_low_mem _ k p h
      · split at h
        · exact ai_mid_mem b _ p h
        · exact ai_high_mem b moves _ p h
  refine ⟨hmem, ?_⟩
  rcases mem_get_candidates_cases b moves 2 p hmem with ⟨hm, rfl⟩ | hok
  · exact ⟨by decide, h0 hm⟩
  · exact hok

/-- Witness for C10: the Mid tier on the empty board returns the center
cell, which is in bounds and empty. -/
theorem ai_choose_move_returns_legal_cell_witness :
    ((7 : Int), (7 : Int)) ∈ get_candidates emptyBoard [] 2
    ∧ inBounds 7 7 = true ∧ getCell emptyBoard 7 7 = EMPTY :=
  ai_choose_move_returns_legal_cell emptyBoard [] DIFF_MID 0 (7, 7)
    (fun _ => by decide) (by decide)

/-! ## Witness boards -/

/-- WHITE has an open four in row 7 (columns 3–6); BLACK has three stones
in row 5. -/
def c2b : Board := [[0,0,0,0,0,0,0,0,0,0,0,0,0,0,0],[0,0,0,0,0,0,0,0,0,0,0,0,0,0,0],[0,0,0,0,0,0,0,0,0,0,0,0,0,0,0],[0,0,0,0,0,0,0,0,0,0,0,0,0,0,0],[0,0,0,0,0,0,0,0,0,0,0,0,0,0,0],[0,0,0,1,1,1,0,0,0,0,0,0,0,0,0],[0,0,0,0,0,0,0,0,0,0,0,0,0,0,0],[0,0,0,2,2,2,2,0,0,0,0,0,0,0,0],[0,0,0,0,0,0,0,0,0,0,0,0,0,0,0],[0,0,0,0,0,0,0,0,0,0,0,0,0,0,0],[0,0,0,0,0,0,0,0,0,0,0,0,0,0,0],[0,0,0,0,0,0,0,0,0,0,0,0,0,0,0],[0,0,0,0,0,0,0,0,0,0,0,0,0,0,0],[0,0,0,0,0,0,0,0,0,0,0,0,0,0,0],[0,0,0,0,0,0,0,0,0,0,0,0,0,0,0]]

def c2moves : List Move := [Move.mk 7 3 2, Move.mk 7 4 2, Move.mk 7 5 2,
  Move.mk 7 6 2, Move.mk 5 3 1, Move.mk 5 4 1, Move.mk 5 5 1]

/-- BLACK has an open four in row 8 (columns 3–6); WHITE has three
scattered stones and no win. -/
def c3b : Board := [[0,0,0,0,0,0,0,0,0,0,0,0,0,0,0],[0,0,0,0,0,0,0,0,0,0,0,0,0,0,0],[0,0,0,0,0,0,0,0,0,0,0,0,0,0,0],[0,0,0,0,0,0,0,0,0,0,0,0,0,0,0],[0,0,0,0,0,0,0,0,0,0,0,0,0,0,0],[0,0,0,0,0,0,0,0,0,0,0,0,0,0,0],[0,0,0,0,0,0,0,0,0,0,0,0,0,0,0],[0,0,0,0,0,0,0,0,0,0,0,0,0,0,0],[0,0,0,1,1,1,1,0,0,0,0,0,0,0,0],[0,0,0,0,0,0,0,0,0,0,0,0,0,0,0],[0,0,0,2,2,0,0,0,0,0,0,0,0,0,0],[0,0,0,0,0,0,2,0,0,0,0,0,0,0,0],[0,0,0,0,0,0,0,0,0,0,0,0,0,0,0],[0,0,0,0,0,0,0,0,0,0,0,0,0,0,0],[0,0,0,0,0,0,0,0,0,0,0,0,0,0,0]]

def c3moves : List Move := [Move.mk 8 3 1, Move.mk 8 4 1, Move.mk 8 5 1,
  Move.mk 8 6 1, Move.mk 10 3 2, Move.mk 10 4 2, Move.mk 11 6 2]

/-- A quiet middle-game board with no immediate threats. -/
def c5b : Board := [[0,0,0,0,0,0,0,0,0,0,0,0,0,0,0],[0,0,0,0,0,0,0,0,0,0,0,0,0,0,0],[0,0,0,0,0,0,0,0,0,0,0,0,0,0,0],[0,0,0,0,0,0,0,0,0,0,0,0,0,0,0],[0,0,0,0,0,0,0,0,0,0,0,0,0,0,0],[0,0,0,0,0,0,0,0,0,0,0,0,0,0,0],[0,0,0,0,0,0,2,0,0,0,0,0,0,0,0],[0,0,0,0,0,0,0,1,2,0,0,0,0,0,0],[0,0,0,0,0,0,0,0,1,0,0,0,0,0,0],[0,0,0,0,0,0,0,0,0,0,0,0,0,0,0],[0,0,0,0,0,0,0,0,0,0,0,0,0,0,0],[0,0,0,0,0,0,0,0,0,0,0,0,0,0,0],[0,0,0,0,0,0,0,0,0,0,0,0,0,0,0],[0,0,0,0,0,0,0,0,0,0,0,0,0,0,0],[0,0,0,0,0,0,0,0,0,0,0,0,0,0,0]]

def c5moves : List Move := [Move.mk 7 7 1, Move.mk 7 8 2, Move.mk 8 8 1,
  Move.mk 6 6 2]

/-- The fully occupied board (every cell BLACK). -/
def fullBoard : Board := List.replicate 15 (List.replicate 15 BLACK)

/-- A move log covering every cell. -/
def fullMoves : List Move :=
  (List.range 15).flatMap fun (r : Nat) =>
    (List.range 15).map fun (c : Nat) => Move.mk (r : Int) (c : Int) BLACK

set_option maxRecDepth 200000 in
/-- Witness for C2: on `c2b` (WHITE open four in row 7) both tiers
return a winning placement. -/
theorem mid_high_take_immediate_win_witness :
    (∃ q, ai_mid c2b (get_candidates c2b c2moves 2) = some q
      ∧ is_win_move c2b q.1 q.2 WHITE = true)
    ∧ ∃ q, ai_high c2b c2moves (get_candidates c2b c2moves 2) = some q
      ∧ is_win_move c2b q.1 q.2 WHITE = true :=
  mid_high_take_immediate_win c2b c2moves (by decide)

set_option maxRecDepth 200000 in
/-- Witness for C3: on `c3b` (BLACK open four in row 8, WHITE cannot
win) both tiers return a cell that blocks BLACK's win. -/
theorem mid_high_block_opponent_win_witness :
    (∃ q, ai_mid c3b (get_candidates c3b c3moves 2) = some q
      ∧ is_win_move c3b q.1 q.2 BLACK = true)
    ∧ ∃ q, ai_high c3b c3moves (get_candidates c3b c3moves 2) = some q
      ∧ is_win_move c3b q.1 q.2 BLACK = true :=
  mid_high_block_opponent_win c3b c3moves (by decide) (by decide)

set_option maxRecDepth 200000 in
/-- Witness for C5 on the quiet board `c5b`. -/
theorem probe_and_lookahead_restore_board_witness :
    (is_win_move_st c5b 7 9 WHITE).2 = c5b
    ∧ (ai_high_st c5b c5moves (get_candidates c5b c5moves 2)).2 = c5b :=
  ⟨probe_and_lookahead_restore_board.1 c5b 7 9 WHITE,
   probe_and_lookahead_restore_board.2 c5b c5moves _ (by decide)⟩

set_option maxRecDepth 200000 in
/-- Witness for C6: the empty log yields exactly the center; on `c2b`
the cell (7, 2) is a candidate (in bounds, empty, adjacent to the WHITE
stone at (7, 3)). -/
theorem get_candidates_characterization_witness :
    get_candidates emptyBoard [] 2 = [CENTER]
    ∧ ((7 : Int), (2 : Int)) ∈ get_candidates c2b c2moves 2 :=
  ⟨(get_candidates_characterization emptyBoard [] 2).1 rfl,
   ((get_candidates_characterization c2b c2moves 2).2.1 (by decide)
      (7, 2)).mpr (by decide)⟩

set_option maxRecDepth 200000 in
/-- Witness for C7 on the fully occupied board. -/
theorem ai_choose_move_none_on_empty_candidates_witness :
    ai_choose_move fullBoard fullMoves DIFF_MID 0 = none :=
  ai_choose_move_none_on_empty_candidates fullBoard fullMoves DIFF_MID 0
    (by decide)

/-! ## C4: the value measured in the lookahead -/

/-- The ranking value as the specification words it: the static
heuristic score of the cell for the computer (measured on the board
before the simulated placement) minus `int(1.05 * opp_best)`.  Written
from the spec for comparison with `lookahead_val`, which is what the
code computes. -/
def spec_lookahead_val (moves : List Move) (b : Board) (r c : Int) : Int :=
  let b1 := setCell b r c WHITE
  score_move b r c WHITE
    - int105 (best_opponent_response b1 (get_candidates b1 moves 2))

/-- The board of the C4 failing input: BLACK to the upper left with a
strong shape, WHITE scattered; no immediate win or block exists. -/
def c4b : Board := [[0,0,0,0,0,0,0,0,0,0,0,0,0,0,0],[0,0,0,0,0,0,0,0,0,0,0,0,0,0,0],[0,0,0,0,0,0,0,0,0,0,0,0,0,0,0],[0,0,0,0,0,0,0,0,0,0,0,0,0,0,0],[0,0,0,0,0,0,0,0,0,0,0,0,0,0,0],[0,0,0,0,0,0,0,0,0,1,0,0,0,0,0],[0,0,0,0,0,0,1,0,2,0,0,0,0,0,0],[0,0,0,0,0,1,2,1,2,0,0,0,0,0,0],[0,0,0,0,0,0,0,0,0,0,0,0,0,0,0],[0,0,0,0,0,0,0,0,0,2,0,0,0,0,0],[0,0,0,0,0,0,0,0,0,0,0,0,0,0,0],[0,0,0,0,0,0,0,0,0,0,0,0,0,0,0],[0,0,0,0,0,0,0,0,0,0,0,0,0,0,0],[0,0,0,0,0,0,0,0,0,0,0,0,0,0,0],[0,0,0,0,0,0,0,0,0,0,0,0,0,0,0]]

def c4moves : List Move := [Move.mk 6 6 1, Move.mk 6 8 2, Move.mk 7 5 1,
  Move.mk 7 8 2, Move.mk 7 7 1, Move.mk 9 9 2, Move.mk 5 9 1,
  Move.mk 7 6 2]

/-- The `scored` list of `ai_high` on the C4 board: each candidate with
its blended static pre-rank score. -/
def c4scored : List (Int × Int × Int) :=
  (get_candidates c4b c4moves 2).map fun p =>
    (score_move c4b p.1 p.2 WHITE + int08 (score_move c4b p.1 p.2 BLACK)
      - ((p.1 - CENTER.1).natAbs + (p.2 - CENTER.2).natAbs : Int) * 2,
     p.1, p.2)

/-- The pre-ranked `top_moves` list of `ai_high` on the C4 board. -/
def c4top : List (Int × Int × Int) :=
  (isort tge c4scored).take (min 20 c4scored.length)


set_option maxRecDepth 200000 in
set_option maxHeartbeats 2000000 in
/-- C4 (the code's slip, refuting the claim as stated): in the High-tier
lookahead the "static heuristic score of that cell" term of the ranking
value is evaluated while the simulated WHITE stone still occupies the
cell — `score_move` then returns the occupied-cell sentinel `-10^15`
for every candidate, so the ranking ignores the candidate's own static
score (the inline comment of the source, "value: AI move score -
opponent best threat", describes the claimed formula, not what is
computed).  On `c4b` no win/block shortcut fires, both (5, 7) and
(8, 9) survive the pre-ranking; the code's measured values prefer
(5, 7) — also when (8, 9) is probed first — while the value the claim
describes ranks (8, 9) strictly higher. -/
theorem ai_high_lookahead_scores_occupied_cell :
    ((∀ p ∈ get_candidates c4b c4moves 2,
        is_win_move c4b p.1 p.2 WHITE = false)
      ∧ ∀ p ∈ get_candidates c4b c4moves 2,
          is_win_move c4b p.1 p.2 BLACK = false)
    ∧ ((c4top.any fun t => t.2.1 == 5 && t.2.2 == 7) = true
      ∧ (c4top.any fun t => t.2.1 == 8 && t.2.2 == 9) = true)
    ∧ (score_move (setCell c4b 5 7 WHITE) 5 7 WHITE = -(10 ^ 15)
      ∧ score_move c4b 5 7 WHITE = 521)
    ∧ lookahead_val c4moves c4b 5 7 > lookahead_val c4moves c4b 8 9
    ∧ (ai_high_loop c4moves c4b [(1031, 8, 9), (80533, 5, 7)] none
        (-(10 ^ 18))).1 = some (5, 7)
    ∧ spec_lookahead_val c4moves c4b 8 9 > spec_lookahead_val c4moves c4b 5 7 := by
  exact ⟨⟨by decide, by decide⟩, ⟨by decide, by decide⟩, ⟨by decide, by decide⟩,
    by decide, by decide, by decide⟩
